import Mathlib

/-!
# Verification of the rCore scheduler / synchronization core

Shallow embedding, in Lean 4, of the parts of the rCore kernel that the
specification's claims are about:

* `Condvar` (src/kernel/src/sync/condvar.rs): the FIFO wait queue and the
  notify family, plus a finite interleaving model of `wait` versus
  `notify_one` for the lost-wakeup property.
* `Processor` (src/crate/thread/src/processor.rs): the scheduler loop `run`
  and the timer hook `tick`, with the `ThreadPool` kept abstract as an
  oracle for `run` / `stop` / `tick`.
* `ipi` (src/kernel/src/arch/x86_64/ipi.rs): `invoke_on_allcpu` and
  `InvokeEvent::call`, with the semaphore modelled by its counter.
* Process syscalls (src/kernel/src/syscall/proc.rs): `sys_exit`,
  `sys_exit_group`, `sys_wait4`, `sys_clone`.
* The ephemeral port allocator (src/kernel/src/net/structs.rs).
* The byte-oriented `Device` adapter over a `BlockDevice`
  (src/kernel/src/rcore_fs/dev/mod.rs).

Machine integers are modelled as `Nat` with explicit `% 2 ^ w` where the
source can overflow or truncate; fallible operations return `Option`.
-/

namespace Condvar

/-!
## Condvar wait queue (src/kernel/src/sync/condvar.rs)

The wait queue is `SpinNoIrqLock<VecDeque<Arc<thread::Thread>>>`; we model
the queue contents as a `List Nat` of thread handles (front of the queue =
head of the list).  The notify functions below return the list of handles
that got unparked, in unpark order, together with the remaining queue.
-/

/-- `Condvar::notify_one` (condvar.rs:80-84): pop the front handle, if any,
and unpark it. Returns (unparked handles in order, remaining queue). -/
def notify_one (queue : List Nat) : List Nat × List Nat :=
  match queue with
  | [] => ([], [])
  | t :: rest => ([t], rest)

/-- `Condvar::notify_all` (condvar.rs:85-89): pop and unpark until the
queue is empty. Returns (unparked handles in order, remaining queue). -/
def notify_all (queue : List Nat) : List Nat × List Nat :=
  match queue with
  | [] => ([], [])
  | t :: rest =>
    let (woken, rest2) := notify_all rest
    (t :: woken, rest2)

/-- `Condvar::notify_n` (condvar.rs:92-103): `while count < n`, pop the
front handle; if the queue is empty, break; otherwise unpark it and
increment `count`. Returns (unparked handles in order, remaining queue,
count). The `Nat` recursion argument is the remaining allowance `n - count`. -/
def notify_n (queue : List Nat) (n : Nat) : List Nat × List Nat × Nat :=
  match n, queue with
  | 0, q => ([], q, 0)
  | _ + 1, [] => ([], [], 0)
  | m + 1, t :: rest =>
    let (woken, q2, count) := notify_n rest m
    (t :: woken, q2, count + 1)

theorem notify_n_count (queue : List Nat) (n : Nat) :
    (notify_n queue n).2.2 = min n queue.length := by
  induction n generalizing queue with
  | zero => simp [notify_n]
  | succ m ih =>
    cases queue with
    | nil => simp [notify_n]
    | cons t rest =>
      simp only [notify_n, ih rest, List.length_cons]
      omega

theorem notify_n_woken (queue : List Nat) (n : Nat) :
    (notify_n queue n).1 = queue.take n := by
  induction n generalizing queue with
  | zero => simp [notify_n]
  | succ m ih =>
    cases queue with
    | nil => simp [notify_n]
    | cons t rest => simp [notify_n, ih rest]

theorem notify_n_rest (queue : List Nat) (n : Nat) :
    (notify_n queue n).2.1 = queue.drop n := by
  induction n generalizing queue with
  | zero => simp [notify_n]
  | succ m ih =>
    cases queue with
    | nil => simp [notify_n]
    | cons t rest => simp [notify_n, ih rest]

theorem notify_all_woken (queue : List Nat) :
    (notify_all queue).1 = queue ∧ (notify_all queue).2 = [] := by
  induction queue with
  | nil => simp [notify_all]
  | cons t rest ih => simp [notify_all, ih.1, ih.2]

end Condvar

/-- C5: `Condvar::notify_n n` removes exactly `min n (queue length)` handles
from the front of the FIFO wait queue, unparks each removed handle (the woken
list is the first `min n len` queue entries in enqueue order, the remainder of
the queue is kept), and returns the number removed; `notify_one` removes and
unparks at most the single front handle; `notify_all` empties the queue,
unparking every handle in FIFO enqueue order. -/
theorem condvar_notify_n_fifo (queue : List Nat) (n : Nat) :
    ((Condvar.notify_n queue n).2.2 = min n queue.length ∧
      (Condvar.notify_n queue n).1 = queue.take (min n queue.length) ∧
      (Condvar.notify_n queue n).2.1 = queue.drop (min n queue.length)) ∧
    (Condvar.notify_one queue).1 = queue.take 1 ∧
    (Condvar.notify_one queue).2 = queue.drop 1 ∧
    (Condvar.notify_all queue).1 = queue ∧
    (Condvar.notify_all queue).2 = [] := by
  refine ⟨⟨Condvar.notify_n_count queue n, ?_, ?_⟩, ?_, ?_,
    (Condvar.notify_all_woken queue).1, (Condvar.notify_all_woken queue).2⟩
  · rw [Condvar.notify_n_woken]
    rcases Nat.le_total n queue.length with h | h
    · rw [Nat.min_eq_left h]
    · rw [Nat.min_eq_right h, List.take_length, List.take_of_length_le h]
  · rw [Condvar.notify_n_rest]
    rcases Nat.le_total n queue.length with h | h
    · rw [Nat.min_eq_left h]
    · rw [Nat.min_eq_right h, List.drop_length, List.drop_of_length_le h]
  · cases queue <;> simp [Condvar.notify_one]
  · cases queue <;> simp [Condvar.notify_one]

namespace NetStructs

/-!
## Ephemeral port allocator (src/kernel/src/net/structs.rs:553-567)

`get_ephemeral_port` keeps a single process-wide `static mut EPHEMERAL_PORT:
u16`, initially `0`.  We model the static as an explicit `Nat < 65536`
threaded through the call, and the one call to `rand::rand()` as a `Nat`
parameter.  The function returns `(returned port, new counter value)`. -/
def get_ephemeral_port (ephemeral_port : Nat) (rand : Nat) : Nat × Nat :=
  let p0 := if ephemeral_port = 0
    then (49152 + rand % (65536 - 49152)) % 65536
    else ephemeral_port
  let p1 := if p0 = 65535 then 49152 else (p0 + 1) % 65536
  (p1, p1)

theorem get_ephemeral_port_init_range (rand : Nat) :
    49152 ≤ (49152 + rand % (65536 - 49152)) % 65536 ∧
      (49152 + rand % (65536 - 49152)) % 65536 ≤ 65535 := by
  have h : rand % (65536 - 49152) < 65536 - 49152 := Nat.mod_lt _ (by norm_num)
  have h2 : 49152 + rand % (65536 - 49152) < 65536 := by omega
  rw [Nat.mod_eq_of_lt h2]
  omega

end NetStructs

/-- C8: the ephemeral port allocator draws from a single process-wide
counter: from the uninitialized state (0) a call first performs the random
initialization; every call advances the counter by exactly one, wrapping from
65535 back to 49152 (a counter at 65535 yields 49152, otherwise the counter's
successor); the returned port always lies in [49152, 65535]; and the new
counter state equals the returned port, which depends only on the counter and
the random draw — no socket set is consulted, so conflicts with ports already
in use are ignored. -/
theorem ephemeral_port_counter (s rand : Nat)
    (h : s = 0 ∨ (49152 ≤ s ∧ s ≤ 65535)) :
    (49152 ≤ (NetStructs.get_ephemeral_port s rand).1 ∧
      (NetStructs.get_ephemeral_port s rand).1 ≤ 65535) ∧
    (NetStructs.get_ephemeral_port s rand).2 =
      (NetStructs.get_ephemeral_port s rand).1 ∧
    (49152 ≤ s →
      (NetStructs.get_ephemeral_port s rand).1 =
        if s = 65535 then 49152 else s + 1) := by
  have hr : rand % (65536 - 49152) < 65536 - 49152 := Nat.mod_lt _ (by norm_num)
  simp only [NetStructs.get_ephemeral_port]
  rcases h with h0 | ⟨hlo, hhi⟩
  · subst h0
    split_ifs <;> refine ⟨⟨?_, ?_⟩, ?_, fun hc => ?_⟩ <;> first | omega | trivial
  · split_ifs <;> refine ⟨⟨?_, ?_⟩, ?_, fun hc => ?_⟩ <;> first | omega | trivial

/-- Closed witness for the hypothesis of `ephemeral_port_counter`:
instantiated at the wrap point 65535 the allocator returns 49152. -/
theorem ephemeral_port_counter_witness :
    (49152 ≤ (NetStructs.get_ephemeral_port 65535 7).1 ∧
      (NetStructs.get_ephemeral_port 65535 7).1 ≤ 65535) ∧
    (NetStructs.get_ephemeral_port 65535 7).2 =
      (NetStructs.get_ephemeral_port 65535 7).1 ∧
    (49152 ≤ 65535 →
      (NetStructs.get_ephemeral_port 65535 7).1 =
        if 65535 = 65535 then 49152 else 65535 + 1) :=
  ephemeral_port_counter 65535 7 (Or.inr ⟨by norm_num, le_refl _⟩)

namespace Processor

/-!
## Processor (src/crate/thread/src/processor.rs)

`ProcessorInner` holds the CPU id, the optional currently-running pair
`proc : Option (Tid, Box<Context>)` and the loop context.  The `ThreadPool`
(`inner.manager`) lives in a different crate file and is kept abstract: a
`PoolOracle` supplies the answers of `manager.run`, `manager.tick`, and the
contents of a running thread's context at the moment it switches back to the
loop (`switchBack`, the "possible mutation" of the context while the thread
runs).  Context values themselves are opaque; we model them as `Nat`.
Externally visible actions of the processor are recorded as `Event`s.
-/

/-- Thread id (`type Tid = usize`). -/
abbrev Tid := Nat

/-- Architecture-opaque register frame; opaque, modelled as `Nat`. -/
abbrev Context := Nat

/-- Answers of the environment: `manager.run(cpu)`, `manager.tick(cpu, tid)`,
and the value of the running thread's context when it yields back. -/
structure PoolOracle where
  run : Nat → Option (Tid × Context)
  switchBack : Tid → Context → Context
  tick : Nat → Option Tid → Bool

/-- `ProcessorInner` (processor.rs:19-24), without the `manager` field
(supplied separately as the oracle). -/
structure Inner where
  id : Nat
  proc : Option (Tid × Context)
  loop_context : Context
deriving DecidableEq

/-- Externally visible actions performed by `run` / `tick`. -/
inductive Event
  | disable_and_store
  | enable_and_wfi
  | switch_to (tid : Tid) (ctx : Context)
  | stop (tid : Tid) (ctx : Context)
  | yield_now
deriving DecidableEq

/-- Result of one pass through the body of the `loop` in `run`
(processor.rs:60-82): either the loop continues with a new inner state after
emitting some events, or the function would return (no code path does). -/
inductive StepResult
  | next (inner : Inner) (events : List Event)
  | returns
deriving DecidableEq

/-- One iteration of the `loop` in `Processor::run` (processor.rs:60-82):
if `manager.run(id)` yields `Some(proc)`, store it in `inner.proc`, switch
into the thread (which returns when the thread yields back, with the context
possibly mutated — `switchBack`), then `take()` the pair out of the slot and
hand it to `manager.stop`; otherwise enable interrupts + wfi, then disable
again. -/
def runBody (pool : PoolOracle) (inner : Inner) : StepResult :=
  match pool.run inner.id with
  | some (tid, ctx) =>
    -- inner.proc = Some(proc)
    let stored : Inner := { inner with proc := some (tid, ctx) }
    -- loop_context.switch_to(&mut inner.proc.1): the thread runs and the
    -- context in the slot is mutated to its switched-back value
    let afterSwitch : Inner := { stored with proc := some (tid, pool.switchBack tid ctx) }
    -- let (tid, context) = inner.proc.take().unwrap(); manager.stop(tid, context)
    let afterTake : Inner := { afterSwitch with proc := none }
    .next afterTake [.switch_to tid ctx, .stop tid (pool.switchBack tid ctx)]
  | none =>
    .next inner [.enable_and_wfi, .disable_and_store]

/-- `Processor::run` iterated `n` times from a given inner state; the
accumulated event trace is returned alongside the final state.  The loop has
no exit edge, so the trace is total in `n`. -/
def runTrace (pool : PoolOracle) (inner : Inner) : Nat → Inner × List Event
  | 0 => (inner, [])
  | n + 1 =>
    match runBody pool inner with
    | .next inner2 evs =>
      let rest := runTrace pool inner2 n
      (rest.1, evs ++ rest.2)
    | .returns => (inner, [])

/-- `Processor::tick` (processor.rs:118-126): fetch the running tid
(`inner.proc.as_ref().map(|p| p.0)`), ask `manager.tick(id, tid)`, and call
`yield_now` exactly when it returns true. -/
def tick (pool : PoolOracle) (inner : Inner) : List Event :=
  let tid := inner.proc.map Prod.fst
  let need_reschedule := pool.tick inner.id tid
  if need_reschedule then [.yield_now] else []

end Processor

/-- C2: each iteration of `Processor::run` asks `pool.run(cpu_id)`; when that
yields `Some((tid, ctx))` the pair is stored in the slot, `switch_to` enters
that thread, and on switch-back the possibly-mutated context is taken out of
the slot (leaving it empty) and passed to `pool.stop(tid, ·)`; when it yields
`None` the processor enables interrupts and waits for an interrupt, disables
them again, and retries with unchanged state; and the loop body never takes a
returning path, so `run` never returns. -/
theorem processor_run_loop (pool : Processor.PoolOracle) (inner : Processor.Inner) :
    (∀ tid ctx, pool.run inner.id = some (tid, ctx) →
      Processor.runBody pool inner =
        Processor.StepResult.next { inner with proc := none }
          [Processor.Event.switch_to tid ctx,
            Processor.Event.stop tid (pool.switchBack tid ctx)]) ∧
    (pool.run inner.id = none →
      Processor.runBody pool inner =
        Processor.StepResult.next inner
          [Processor.Event.enable_and_wfi, Processor.Event.disable_and_store]) ∧
    Processor.runBody pool inner ≠ Processor.StepResult.returns ∧
    (∀ n, ∃ inner2 evs,
      Processor.runTrace pool inner (n + 1) = (inner2, evs) ∧ evs ≠ []) := by
  refine ⟨?_, ?_, ?_, ?_⟩
  · intro tid ctx hrun
    simp [Processor.runBody, hrun]
  · intro hrun
    simp [Processor.runBody, hrun]
  · unfold Processor.runBody
    cases hrun : pool.run inner.id with
    | none => simp
    | some p => cases p with
      | mk tid ctx => simp
  · intro n
    unfold Processor.runTrace
    cases hrun : pool.run inner.id with
    | none =>
      refine ⟨_, _, rfl, ?_⟩
      simp [Processor.runBody, hrun]
    | some p => cases p with
      | mk tid ctx =>
        refine ⟨_, _, rfl, ?_⟩
        simp [Processor.runBody, hrun]

/-- Closed witness for `processor_run_loop`: a one-thread pool on CPU 0;
the busy iteration emits the switch and the stop of thread 7, whose context
was mutated from 3 to 4 while it ran. -/
theorem processor_run_loop_witness :
    Processor.runBody
        ⟨fun _ => some (7, 3), fun _ c => c + 1, fun _ _ => false⟩
        ⟨0, none, 0⟩ =
      Processor.StepResult.next ⟨0, none, 0⟩
        [Processor.Event.switch_to 7 3, Processor.Event.stop 7 4] :=
  (processor_run_loop ⟨fun _ => some (7, 3), fun _ c => c + 1, fun _ _ => false⟩
    ⟨0, none, 0⟩).1 7 3 rfl

/-- C4: `Processor::tick` fetches the currently-running tid
(`inner.proc.map Prod.fst`, `none` when the CPU is idle), calls
`pool.tick(cpu_id, tid)` with exactly that tid, and calls `yield_now` if and
only if the pool requests preemption; under the ThreadPool contract that an
idle tick requests no preemption (`pool.tick id none = false`, the
processor.rs:119 comment), an idle CPU's tick performs no scheduling action,
so the CPU re-enters `run` via normal interrupt return. -/
theorem processor_tick_preemption (pool : Processor.PoolOracle)
    (inner : Processor.Inner) (hidle : pool.tick inner.id none = false) :
    Processor.tick pool inner =
      (if pool.tick inner.id (inner.proc.map Prod.fst)
        then [Processor.Event.yield_now] else []) ∧
    (Processor.Event.yield_now ∈ Processor.tick pool inner ↔
      pool.tick inner.id (inner.proc.map Prod.fst) = true) ∧
    (inner.proc = none → Processor.tick pool inner = []) := by
  refine ⟨rfl, ?_, ?_⟩
  · unfold Processor.tick
    cases h : pool.tick inner.id (inner.proc.map Prod.fst) <;> simp [h]
  · intro hnone
    unfold Processor.tick
    rw [hnone]
    simp [hidle]

/-- Closed witness for `processor_tick_preemption`: a pool that requests
preemption exactly when a thread is running; on an idle CPU the tick emits no
event. -/
theorem processor_tick_preemption_witness :
    Processor.tick ⟨fun _ => none, fun _ c => c, fun _ t => t.isSome⟩
        ⟨0, none, 0⟩ =
      (if (⟨fun _ => none, fun _ c => c, fun _ t => t.isSome⟩ :
          Processor.PoolOracle).tick 0 ((none : Option (Processor.Tid × Processor.Context)).map Prod.fst)
        then [Processor.Event.yield_now] else []) ∧
    (Processor.Event.yield_now ∈
        Processor.tick ⟨fun _ => none, fun _ c => c, fun _ t => t.isSome⟩ ⟨0, none, 0⟩ ↔
      (⟨fun _ => none, fun _ c => c, fun _ t => t.isSome⟩ :
          Processor.PoolOracle).tick 0 ((none : Option (Processor.Tid × Processor.Context)).map Prod.fst) = true) ∧
    ((none : Option (Processor.Tid × Processor.Context)) = none →
      Processor.tick ⟨fun _ => none, fun _ c => c, fun _ t => t.isSome⟩ ⟨0, none, 0⟩ = []) :=
  processor_tick_preemption ⟨fun _ => none, fun _ c => c, fun _ t => t.isSome⟩
    ⟨0, none, 0⟩ rfl

namespace CondvarWait

/-!
## Interleaving model of `Condvar::wait` versus `Condvar::notify_one`

`Condvar::wait` (condvar.rs:67-78) does, in source order:
1. `let mutex = guard.mutex;`
2. `let lock = self.add_to_wait_queue();` — acquire the wait-queue
   `SpinNoIrqLock` and `push_back` the caller's handle, keeping the lock
   guard alive (condvar.rs:60-64);
3. `thread::park_action(move || { drop(lock); drop(guard); });`
4. `mutex.lock()` after waking.

`thread::park_action` lives in the thread crate, which is not under `src/`.
Modelled from the spec: "park with action" takes a function that runs on the
scheduler's side of the context switch, *after* the thread is in Sleeping
state but before control leaves the CPU; that function drops the wait-queue
lock and the caller-supplied guard (spec §4.6, §9).  Unpark of a Sleeping
thread makes it Ready; unpark of a non-Sleeping thread is a no-op.

The model is a finite labelled transition system with one waiter and one
notifier.  Each label is one atomic step of the source; `step` returns
`none` when the label is not enabled (e.g. the spinlock is held by the other
side).
-/

/-- Program counter of the waiter thread executing `Condvar::wait`. -/
inductive WaiterPc
  | ready        -- before `add_to_wait_queue`, holding the mutex guard
  | enqueued     -- handle pushed, wait-queue lock held (condvar.rs:60-64)
  | sleeping     -- park_action: thread status set to Sleeping
  | droppedLock  -- the action ran `drop(lock)` (condvar.rs:74)
  | droppedGuard -- the action ran `drop(guard)` (condvar.rs:75)
  | parked       -- control left the thread (switched to scheduler loop)
  | woken        -- scheduler re-selected the thread after wakeup
  | done         -- `mutex.lock()` returned a fresh guard (condvar.rs:77)
deriving DecidableEq

/-- Program counter of the notifier executing `Condvar::notify_one`. -/
inductive NotifierPc
  | idle      -- before `notify_one`
  | locked    -- `wait_queue.lock()` acquired and `pop_front` done
  | finished  -- unpark done, wait-queue lock released
deriving DecidableEq

/-- ThreadPool status of the waiter thread. -/
inductive Status
  | running
  | sleepingS
  | readyS
deriving DecidableEq

/-- Holder of the wait-queue `SpinNoIrqLock`. -/
inductive LockOwner
  | free
  | waiter
  | notifier
deriving DecidableEq

structure State where
  wpc : WaiterPc
  npc : NotifierPc
  wqOwner : LockOwner
  queued : Bool     -- the waiter's handle is in the wait queue
  popped : Bool     -- the notifier's `pop_front` returned Some(handle)
  mutexHeld : Bool  -- the mutex of the guard passed to `wait` is held
  status : Status
deriving DecidableEq

/-- Initial state: the waiter runs and holds the mutex guard it will pass to
`wait`; the queue is empty; the notifier has not started. -/
def init : State :=
  ⟨.ready, .idle, .free, false, false, true, .running⟩

/-- Atomic steps of the two threads. -/
inductive Label
  | enqueue        -- waiter: add_to_wait_queue (lock; push_back; keep lock)
  | setSleeping    -- waiter: park_action marks the thread Sleeping
  | dropLock       -- waiter: the action drops the wait-queue lock
  | dropGuard      -- waiter: the action drops the mutex guard
  | park           -- waiter: switch away to the scheduler loop
  | wake           -- scheduler: runs the waiter again once it is Ready
  | relock         -- waiter: `mutex.lock()` after waking
  | notifyPop      -- notifier: wait_queue.lock() and pop_front
  | notifyUnpark   -- notifier: unpark the popped handle, release the lock
deriving DecidableEq

/-- Enabled-step function: `none` when the label cannot fire in `s`. -/
def step : Label → State → Option State
  | .enqueue, s =>
    if s.wpc = .ready ∧ s.wqOwner = .free then
      some { s with wpc := .enqueued, wqOwner := .waiter, queued := true }
    else none
  | .setSleeping, s =>
    if s.wpc = .enqueued then
      some { s with wpc := .sleeping, status := .sleepingS }
    else none
  | .dropLock, s =>
    if s.wpc = .sleeping then
      some { s with wpc := .droppedLock, wqOwner := .free }
    else none
  | .dropGuard, s =>
    if s.wpc = .droppedLock then
      some { s with wpc := .droppedGuard, mutexHeld := false }
    else none
  | .park, s =>
    if s.wpc = .droppedGuard then
      some { s with wpc := .parked }
    else none
  | .wake, s =>
    if s.wpc = .parked ∧ s.status = .readyS then
      some { s with wpc := .woken, status := .running }
    else none
  | .relock, s =>
    if s.wpc = .woken ∧ s.mutexHeld = false then
      some { s with wpc := .done, mutexHeld := true }
    else none
  | .notifyPop, s =>
    if s.npc = .idle ∧ s.wqOwner = .free then
      some { s with npc := .locked, wqOwner := .notifier,
                    popped := s.queued, queued := false }
    else none
  | .notifyUnpark, s =>
    if s.npc = .locked then
      some { s with npc := .finished, wqOwner := .free,
                    status := if s.popped ∧ s.status = .sleepingS
                              then .readyS else s.status }
    else none

/-- States reachable from `init` by any interleaving of enabled steps. -/
inductive Reachable : State → Prop
  | init : Reachable init
  | step (l : Label) (s s' : State) : Reachable s → step l s = some s' →
      Reachable s'

/-- Inductive invariant of the system, as a decidable Boolean predicate. -/
def inv (s : State) : Bool :=
  -- the waiter keeps the mutex until the park action runs
  (decide ((s.wpc = .ready ∨ s.wpc = .enqueued ∨ s.wpc = .sleeping ∨
      s.wpc = .droppedLock) → s.mutexHeld = true)) &&
  -- the wait-queue lock is held continuously from enqueue to the action
  (decide ((s.wpc = .enqueued ∨ s.wpc = .sleeping) → s.wqOwner = .waiter)) &&
  (decide (s.wpc = .ready → s.queued = false ∧ s.status = .running)) &&
  (decide ((s.wpc = .enqueued ∨ s.wpc = .sleeping) → s.queued = true)) &&
  (decide (s.wpc = .enqueued → s.status = .running)) &&
  -- the thread is Sleeping by the time any lock is released
  (decide (s.wpc = .sleeping → s.status = .sleepingS)) &&
  (decide ((s.wpc = .droppedLock ∨ s.wpc = .droppedGuard ∨ s.wpc = .parked) →
      (s.status = .sleepingS ∨ s.status = .readyS))) &&
  (decide ((s.wpc = .droppedGuard ∨ s.wpc = .parked) → s.mutexHeld = false)) &&
  (decide (s.wpc = .woken → s.status = .running ∧ s.mutexHeld = false ∧
      s.queued = false)) &&
  (decide (s.wpc = .done → s.status = .running ∧ s.mutexHeld = true ∧
      s.queued = false)) &&
  -- a Ready status can only come from an unpark of the popped handle
  (decide (s.status = .readyS → s.popped = true ∧ s.queued = false ∧
      s.npc = .finished)) &&
  -- the handle cannot be both still queued and already popped
  (decide (¬(s.queued = true ∧ s.popped = true))) &&
  (decide (s.npc = .locked → s.wqOwner = .notifier)) &&
  (decide (s.npc = .idle → s.popped = false)) &&
  -- when the notifier pops the handle, the waiter is already Sleeping
  (decide (s.npc = .locked ∧ s.popped = true →
      s.status = .sleepingS ∨ s.status = .readyS)) &&
  -- no lost wakeup: a completed notify that popped the handle has woken it
  (decide (s.npc = .finished ∧ s.popped = true →
      (s.status = .readyS ∨ s.wpc = .woken ∨ s.wpc = .done)))

def allBool : List Bool := [false, true]

def allWpc : List WaiterPc :=
  [.ready, .enqueued, .sleeping, .droppedLock, .droppedGuard, .parked, .woken, .done]

def allNpc : List NotifierPc := [.idle, .locked, .finished]

def allStatus : List Status := [.running, .sleepingS, .readyS]

def allOwner : List LockOwner := [.free, .waiter, .notifier]

def allLabels : List Label :=
  [.enqueue, .setSleeping, .dropLock, .dropGuard, .park, .wake, .relock,
    .notifyPop, .notifyUnpark]

def allStates : List State :=
  allWpc.flatMap fun w =>
    allNpc.flatMap fun n =>
      allOwner.flatMap fun o =>
        allBool.flatMap fun q =>
          allBool.flatMap fun p =>
            allBool.flatMap fun m =>
              allStatus.map fun st => ⟨w, n, o, q, p, m, st⟩

theorem mem_allStates (s : State) : s ∈ allStates := by
  rcases s with ⟨w, n, o, q, p, m, st⟩
  simp only [allStates, List.mem_flatMap, List.mem_map]
  refine ⟨w, ?_, n, ?_, o, ?_, q, ?_, p, ?_, m, ?_, st, ?_, rfl⟩
  · cases w <;> simp [allWpc]
  · cases n <;> simp [allNpc]
  · cases o <;> simp [allOwner]
  · cases q <;> simp [allBool]
  · cases p <;> simp [allBool]
  · cases m <;> simp [allBool]
  · cases st <;> simp [allStatus]

theorem mem_allLabels (l : Label) : l ∈ allLabels := by
  cases l <;> simp [allLabels]

theorem inv_init : inv init = true := by decide

set_option maxRecDepth 100000 in
theorem inv_step_all :
    (allLabels.all fun l => allStates.all fun s =>
      !inv s || Option.all inv (step l s)) = true := by decide

theorem inv_step (l : Label) (s : State) (h : inv s = true) :
    Option.all inv (step l s) = true := by
  have h1 := List.all_eq_true.mp inv_step_all l (mem_allLabels l)
  have h2 := List.all_eq_true.mp h1 s (mem_allStates s)
  rw [h] at h2
  simpa using h2

theorem inv_reachable (s : State) (h : Reachable s) : inv s = true := by
  induction h with
  | init => exact inv_init
  | step l s1 s2 _ hstep ih =>
    have h2 := inv_step l s1 ih
    rw [hstep] at h2
    simpa [Option.all] using h2

end CondvarWait

set_option maxHeartbeats 1000000 in
/-- C1: in the model of `Condvar::wait` against a concurrent `notify_one`,
for every reachable interleaving: while the caller is between
`add_to_wait_queue` and the park action its handle is enqueued, the
wait-queue lock is held by it, and the mutex is still held (the enqueue
happened under the wait-queue lock); whenever either lock has been dropped
by the park action the thread status is already Sleeping (or Ready if a
notify intervened), i.e. both releases happen only inside the park action on
the scheduler side, after the Sleeping transition; the mutex is ever
unheld only between the park action's `drop(guard)` and the post-wake
`mutex.lock()`, which re-acquires the same mutex before `wait` returns; and
a completed `notify_one` that popped the caller's handle — in particular one
issued between the mutex release and the park — always leaves the caller
Ready, woken, or finished: the notify is never lost. -/
theorem condvar_wait_atomic_release (s : CondvarWait.State)
    (h : CondvarWait.Reachable s) :
    ((s.wpc = .enqueued ∨ s.wpc = .sleeping) →
      s.wqOwner = .waiter ∧ s.queued = true ∧ s.mutexHeld = true) ∧
    ((s.wpc = .droppedLock ∨ s.wpc = .droppedGuard ∨ s.wpc = .parked) →
      s.status = .sleepingS ∨ s.status = .readyS) ∧
    (s.mutexHeld = false →
      s.wpc = .droppedGuard ∨ s.wpc = .parked ∨ s.wpc = .woken) ∧
    (s.wpc = .done → s.mutexHeld = true ∧ s.status = .running) ∧
    (s.npc = .finished ∧ s.popped = true →
      s.status = .readyS ∨ s.wpc = .woken ∨ s.wpc = .done) := by
  have hinv := CondvarWait.inv_reachable s h
  simp only [CondvarWait.inv, Bool.and_eq_true, decide_eq_true_eq, and_assoc] at hinv
  obtain ⟨h1, h2, h3, h4, h5, h6, h7, h8, h9, h10, h11, h12, h13, h14, h15, h16⟩ := hinv
  refine ⟨fun hw => ⟨h2 hw, h4 hw, h1 (Or.inr (hw.imp id Or.inl))⟩, h7, ?_,
    fun hd => ⟨(h10 hd).2.1, (h10 hd).1⟩, h16⟩
  intro hm
  cases hw : s.wpc
  case ready => exact absurd (h1 (Or.inl hw)) (by simp [hm])
  case enqueued => exact absurd (h1 (Or.inr (Or.inl hw))) (by simp [hm])
  case sleeping => exact absurd (h1 (Or.inr (Or.inr (Or.inl hw)))) (by simp [hm])
  case droppedLock => exact absurd (h1 (Or.inr (Or.inr (Or.inr hw)))) (by simp [hm])
  case droppedGuard => exact Or.inl rfl
  case parked => exact Or.inr (Or.inl rfl)
  case woken => exact Or.inr (Or.inr rfl)
  case done => exact absurd (h10 hw).2.1 (by simp [hm])

/-- Closed witness for `condvar_wait_atomic_release`: along the interleaving
enqueue, set-Sleeping, drop wait-queue lock, drop mutex guard, then a full
`notify_one` squeezed in before the park, followed by the park, the parked
waiter is Ready — the notify issued between the mutex release and the park
was not lost. -/
theorem condvar_wait_atomic_release_witness :
    CondvarWait.State.status ⟨.parked, .finished, .free, false, true, false, .readyS⟩ = .readyS ∨
    CondvarWait.State.wpc ⟨.parked, .finished, .free, false, true, false, .readyS⟩ = .woken ∨
    CondvarWait.State.wpc ⟨.parked, .finished, .free, false, true, false, .readyS⟩ = .done :=
  (condvar_wait_atomic_release ⟨.parked, .finished, .free, false, true, false, .readyS⟩
    (CondvarWait.Reachable.step .park
      ⟨.droppedGuard, .finished, .free, false, true, false, .readyS⟩ _
      (CondvarWait.Reachable.step .notifyUnpark
        ⟨.droppedGuard, .locked, .notifier, false, true, false, .sleepingS⟩ _
        (CondvarWait.Reachable.step .notifyPop
          ⟨.droppedGuard, .idle, .free, true, false, false, .sleepingS⟩ _
          (CondvarWait.Reachable.step .dropGuard
            ⟨.droppedLock, .idle, .free, true, false, true, .sleepingS⟩ _
            (CondvarWait.Reachable.step .dropLock
              ⟨.sleeping, .idle, .waiter, true, false, true, .sleepingS⟩ _
              (CondvarWait.Reachable.step .setSleeping
                ⟨.enqueued, .idle, .waiter, true, false, true, .running⟩ _
                (CondvarWait.Reachable.step .enqueue CondvarWait.init _
                  CondvarWait.Reachable.init (by decide))
                (by decide))
              (by decide))
            (by decide))
          (by decide))
        (by decide))
      (by decide))).2.2.2.2 ⟨rfl, rfl⟩

namespace Ipi

/-!
## IPI broadcast (src/kernel/src/arch/x86_64/ipi.rs)

`invoke_on_allcpu(f, arg, wait)` (ipi.rs:55-77) creates `Semaphore::new(0)`,
wraps `arg` in an `Arc`, and then for each CPU (via `Cpu::foreach`)
increments `cpu_count`, enqueues an `InvokeEvent` holding `f`, the shared
argument and the shared semaphore, and sends one IPI to that CPU.  If
`wait`, it then performs `cpu_count` times `sem.acquire()`.
`InvokeEvent::call` (ipi.rs:30-38) runs `(self.function)(arg_ref)` and then
`self.done_semaphore.release()` — exactly one release per event call.

The `Semaphore` type lives in the sync module, which is not under `src/`.
Modelled from the spec: a counted semaphore built atop Condvar (spec §4.7) —
`release` increments the count, `acquire` blocks while the count is 0 and
then decrements it.  The wait phase is modelled as a transition system over
the counters: target CPUs run their queued events in any interleaving with
the caller's acquires.
-/

/-- Result of the `Cpu::foreach` broadcast loop: the running `cpu_count`,
the cpu ids that got an event enqueued, and the cpu ids that got an IPI, in
loop order. -/
structure BroadcastResult where
  cpu_count : Nat
  events : List Nat
  ipis : List Nat
deriving DecidableEq

/-- The `Cpu::foreach` loop body (ipi.rs:63-69): per CPU, `cpu_count += 1`,
`cpu.notify_event(createItem(...))`, `apic.send_ipi(id, IPIFuncCall)`. -/
def broadcastLoop (cpus : List Nat) (acc : BroadcastResult) : BroadcastResult :=
  match cpus with
  | [] => acc
  | id :: rest =>
    broadcastLoop rest
      ⟨acc.cpu_count + 1, acc.events ++ [id], acc.ipis ++ [id]⟩

/-- The whole broadcast phase of `invoke_on_allcpu`, starting from
`cpu_count = 0` and nothing sent. -/
def broadcast (cpus : List Nat) : BroadcastResult :=
  broadcastLoop cpus ⟨0, [], []⟩

/-- Counters of the wait phase. -/
structure WaitState where
  pending : Nat   -- events enqueued but whose `call` has not run yet
  called : Nat    -- events whose `f(arg)` has run
  sem : Nat       -- semaphore count (`Semaphore::new(0)` at broadcast time)
  acquired : Nat  -- completed `sem.acquire()` calls by the caller
deriving DecidableEq

/-- Interleavings of the wait phase for `n` notified CPUs: a target CPU can
run one pending `InvokeEvent::call` (run `f`, then release the semaphore
once), and the caller can complete one of its `cpu_count` acquires whenever
the semaphore is positive. -/
inductive WaitStep (n : Nat) : WaitState → WaitState → Prop
  | runEvent (s : WaitState) : 0 < s.pending →
      WaitStep n s ⟨s.pending - 1, s.called + 1, s.sem + 1, s.acquired⟩
  | acquire (s : WaitState) : 0 < s.sem → s.acquired < n →
      WaitStep n s ⟨s.pending, s.called, s.sem - 1, s.acquired + 1⟩

/-- Wait-phase states reachable from the post-broadcast state (`n` pending
events, semaphore 0, nothing called or acquired). -/
inductive WaitReachable (n : Nat) : WaitState → Prop
  | init : WaitReachable n ⟨n, 0, 0, 0⟩
  | step (s s' : WaitState) : WaitReachable n s → WaitStep n s s' →
      WaitReachable n s'

theorem broadcastLoop_spec (cpus : List Nat) (acc : BroadcastResult) :
    broadcastLoop cpus acc =
      ⟨acc.cpu_count + cpus.length, acc.events ++ cpus, acc.ipis ++ cpus⟩ := by
  induction cpus generalizing acc with
  | nil => simp [broadcastLoop]
  | cons id rest ih =>
    rw [broadcastLoop, ih]
    simp only [List.length_cons, List.append_assoc, List.singleton_append]
    congr 1
    omega

theorem wait_counters (n : Nat) (s : WaitState) (h : WaitReachable n s) :
    s.called + s.pending = n ∧ s.sem + s.acquired = s.called := by
  induction h with
  | init => simp
  | step s1 s2 _ hstep ih =>
    obtain ⟨ih1, ih2⟩ := ih
    cases hstep with
    | runEvent hp =>
      dsimp only
      omega
    | acquire hs ha =>
      dsimp only
      omega

end Ipi

/-- C3: `invoke_on_allcpu` enqueues exactly one event and sends exactly one
IPI per CPU (in `Cpu::foreach` order, with `cpu_count` ending equal to the
number of CPUs); each event's `call` runs `f` on the argument and then
releases the shared semaphore exactly once (in every reachable wait-phase
state, releases performed equal events called: `sem + acquired = called`);
and when `wait` is true the caller performs `cpu_count` acquires on that
semaphore, so in any state where it has completed them, every target CPU has
invoked its function (`called = n`, no event pending). -/
theorem ipi_invoke_on_allcpu (cpus : List Nat) (n : Nat) (s : Ipi.WaitState)
    (h : Ipi.WaitReachable n s) :
    ((Ipi.broadcast cpus).cpu_count = cpus.length ∧
      (Ipi.broadcast cpus).events = cpus ∧
      (Ipi.broadcast cpus).ipis = cpus) ∧
    (s.called + s.pending = n ∧ s.sem + s.acquired = s.called) ∧
    (s.acquired = n → s.called = n ∧ s.pending = 0) := by
  have hc := Ipi.wait_counters n s h
  refine ⟨?_, hc, fun ha => ⟨by omega, by omega⟩⟩
  rw [Ipi.broadcast, Ipi.broadcastLoop_spec]
  simp

/-- Closed witness for `ipi_invoke_on_allcpu`: 4 CPUs; after the four events
have run and the caller finished its four acquires, all four functions have
been invoked and nothing is pending. -/
theorem ipi_invoke_on_allcpu_witness :
    ((Ipi.broadcast [0, 1, 2, 3]).cpu_count = 4 ∧
      (Ipi.broadcast [0, 1, 2, 3]).events = [0, 1, 2, 3] ∧
      (Ipi.broadcast [0, 1, 2, 3]).ipis = [0, 1, 2, 3]) ∧
    ((4 : Nat) + 0 = 4 ∧ (0 : Nat) + 4 = 4) ∧
    ((4 : Nat) = 4 → (4 : Nat) = 4 ∧ (0 : Nat) = 0) := by
  have hr1 : Ipi.WaitReachable 4 ⟨3, 1, 1, 0⟩ :=
    Ipi.WaitReachable.step _ _ Ipi.WaitReachable.init
      (Ipi.WaitStep.runEvent ⟨4, 0, 0, 0⟩ (by decide))
  have hr2 : Ipi.WaitReachable 4 ⟨2, 2, 2, 0⟩ :=
    Ipi.WaitReachable.step _ _ hr1 (Ipi.WaitStep.runEvent ⟨3, 1, 1, 0⟩ (by decide))
  have hr3 : Ipi.WaitReachable 4 ⟨1, 3, 3, 0⟩ :=
    Ipi.WaitReachable.step _ _ hr2 (Ipi.WaitStep.runEvent ⟨2, 2, 2, 0⟩ (by decide))
  have hr4 : Ipi.WaitReachable 4 ⟨0, 4, 4, 0⟩ :=
    Ipi.WaitReachable.step _ _ hr3 (Ipi.WaitStep.runEvent ⟨1, 3, 3, 0⟩ (by decide))
  have hr5 : Ipi.WaitReachable 4 ⟨0, 4, 3, 1⟩ :=
    Ipi.WaitReachable.step _ _ hr4
      (Ipi.WaitStep.acquire ⟨0, 4, 4, 0⟩ (by decide) (by decide))
  have hr6 : Ipi.WaitReachable 4 ⟨0, 4, 2, 2⟩ :=
    Ipi.WaitReachable.step _ _ hr5
      (Ipi.WaitStep.acquire ⟨0, 4, 3, 1⟩ (by decide) (by decide))
  have hr7 : Ipi.WaitReachable 4 ⟨0, 4, 1, 3⟩ :=
    Ipi.WaitReachable.step _ _ hr6
      (Ipi.WaitStep.acquire ⟨0, 4, 2, 2⟩ (by decide) (by decide))
  have hr8 : Ipi.WaitReachable 4 ⟨0, 4, 0, 4⟩ :=
    Ipi.WaitReachable.step _ _ hr7
      (Ipi.WaitStep.acquire ⟨0, 4, 1, 3⟩ (by decide) (by decide))
  exact ipi_invoke_on_allcpu [0, 1, 2, 3] 4 ⟨0, 4, 0, 4⟩ hr8

namespace Proc

/-!
## Process syscalls (src/kernel/src/syscall/proc.rs)

`Process` carries the fields `sys_exit` / `sys_exit_group` / `sys_wait4`
use: the thread list, the children (weak references — a dead child fails to
upgrade) and `child_exit_code : BTreeMap<usize, usize>`.  The map is
modelled as an association list sorted by pid, so `iter().next()` is the
head.  `exit_code as i32` is the usize→i32 cast, modelled explicitly.
-/

inductive SysError
  | ECHILD
  | ENOSYS
  | EFAULT
deriving DecidableEq

/-- The `as i32` cast of a usize exit code (proc.rs:88). -/
def usizeToI32 (c : Nat) : Int :=
  if c % 2 ^ 32 < 2 ^ 31 then ((c % 2 ^ 32 : Nat) : Int)
  else ((c % 2 ^ 32 : Nat) : Int) - 2 ^ 32

/-- A `Weak<Mutex<Process>>` entry in `children`: the pid it upgrades to,
and whether `upgrade()` still succeeds (false once the child process has
been dropped after exiting). -/
structure Child where
  pid : Nat
  alive : Bool
deriving DecidableEq

structure Process where
  pid : Nat
  threads : List Nat
  children : List Child
  child_exit_code : List (Nat × Nat)
deriving DecidableEq

/-- `BTreeMap::insert`, on the pid-sorted association list. -/
def mapInsert : List (Nat × Nat) → Nat → Nat → List (Nat × Nat)
  | [], k, v => [(k, v)]
  | (k', v') :: rest, k, v =>
    if k < k' then (k, v) :: (k', v') :: rest
    else if k = k' then (k, v) :: rest
    else (k', v') :: mapInsert rest k v

/-- `BTreeMap::get`. -/
def mapGet : List (Nat × Nat) → Nat → Option Nat
  | [], _ => none
  | (k', v) :: rest, k => if k' = k then some v else mapGet rest k

/-- `BTreeMap::remove`. -/
def mapRemove (m : List (Nat × Nat)) (k : Nat) : List (Nat × Nat) :=
  m.filter fun kv => kv.1 ≠ k

/-- `iter().next()` on the BTreeMap: the entry with the smallest pid. -/
def mapFirst (m : List (Nat × Nat)) : Option (Nat × Nat) :=
  m.head?

/-- `sys_exit` (proc.rs:235-272), restricted to its cross-process effect:
remove the exiting thread from `proc.threads`; when it was the last thread,
insert the (uncast, unmasked) exit code into the parent's `child_exit_code`
under the child's pid and notify the parent's `child_exit` condvar.
Returns (child after, parent after). -/
def sys_exit (child parent : Process) (tid : Nat) (exit_code : Nat) :
    Process × Process :=
  let threads2 := child.threads.filter fun id => id ≠ tid
  let child2 := { child with threads := threads2 }
  if threads2.isEmpty then
    (child2,
      { parent with
          child_exit_code := mapInsert parent.child_exit_code child.pid exit_code })
  else
    (child2, parent)

/-- `sys_exit_group` (proc.rs:275-297), same cross-process effect but
unconditional: every thread of the group exits and the exit code is
recorded with the parent. -/
def sys_exit_group (child parent : Process) (exit_code : Nat) : Process :=
  { parent with
      child_exit_code := mapInsert parent.child_exit_code child.pid exit_code }

inductive WaitTarget
  | anyChild
  | pid (p : Nat)
deriving DecidableEq

/-- Result of one pass of the `loop` in `sys_wait4` (proc.rs:72-117). -/
inductive Wait4Result
  | ok (pid : Nat) (wstatus : Int) (proc : Process)
  | err (e : SysError)
  | sleepRetry
deriving DecidableEq

/-- One pass of the `sys_wait4` loop body (proc.rs:72-117), for a non-null
`wstatus`: look up `child_exit_code` (first entry for AnyChild, `get` for a
pid); if found, remove the entry, write `exit_code as i32` to `wstatus`
and return the pid; otherwise, if no live (upgradeable) child matches the
target, fail with ECHILD; otherwise sleep on `child_exit` and retry. -/
def sys_wait4_pass (proc : Process) (target : WaitTarget) : Wait4Result :=
  let find := match target with
    | .anyChild => mapFirst proc.child_exit_code
    | .pid p => (mapGet proc.child_exit_code p).map fun code => (p, code)
  match find with
  | some (pid, exit_code) =>
    .ok pid (usizeToI32 exit_code)
      { proc with child_exit_code := mapRemove proc.child_exit_code pid }
  | none =>
    let children := proc.children.filter fun c => c.alive
    let invalid : Bool := match target with
      | .anyChild => children.isEmpty
      | .pid p => (children.find? fun c => c.pid = p).isNone
    if invalid then .err .ECHILD else .sleepRetry

/-- `sys_wait4` (proc.rs:57-118) argument decoding: pid −1 or 0 waits for
any child, a positive pid for that child; other arguments hit
`unimplemented!()` (modelled as `none`). -/
def sys_wait4 (proc : Process) (pid : Int) : Option Wait4Result :=
  if pid = -1 ∨ pid = 0 then some (sys_wait4_pass proc .anyChild)
  else if pid > 0 then some (sys_wait4_pass proc (.pid pid.toNat))
  else none

theorem mapGet_mapRemove (m : List (Nat × Nat)) (k : Nat) :
    mapGet (mapRemove m k) k = none := by
  induction m with
  | nil => rfl
  | cons kv rest ih =>
    by_cases hk : kv.1 = k
    · simpa [mapRemove, List.filter, hk] using ih
    · simpa [mapRemove, List.filter, hk, mapGet] using ih

end Proc

namespace Proc

/-- End-to-end wait scenario: a child (pid 2) whose only thread (tid 5)
exits with `exit_code`; the parent (pid 1) then calls `wait4(-1, &status)`.
Returns the status value written, if the call succeeded. -/
def waitStatusAfterExit (exit_code : Nat) : Option Int :=
  match sys_wait4 ((sys_exit ⟨2, [5], [], []⟩ ⟨1, [9], [⟨2, false⟩], []⟩
      5 exit_code).2) (-1) with
  | some (.ok _ ws _) => some ws
  | _ => none

end Proc

/-- Counterexample to C6 as stated: "only the low 8 bits are significant"
fails — children exiting with codes 256 and 256 % 256 = 0 (equal in their
low 8 bits) produce different statuses at the parent's `wait4`: 256 is
stored, not 0. -/
theorem sys_wait4_status_not_masked :
    Proc.waitStatusAfterExit 256 = some 256 ∧
    Proc.waitStatusAfterExit (256 % 256) = some 0 ∧
    Proc.waitStatusAfterExit 256 ≠ Proc.waitStatusAfterExit (256 % 256) := by
  decide

/-- C6 (amended): when a child process exits with code c via `sys_exit`
(last thread) or `sys_exit_group`, the code is recorded with the parent
un-masked, and the parent's `sys_wait4(-1, &status)` returns the child's
pid and stores the child's exit code into `status` cast usize→i32 with no
masking to the low 8 bits; for a child exiting with 42, `status == 42`. -/
theorem sys_wait4_returns_child_exit_code (c : Nat) :
    Proc.sys_wait4 ((Proc.sys_exit ⟨2, [5], [], []⟩ ⟨1, [9], [⟨2, false⟩], []⟩
        5 c).2) (-1) =
      some (Proc.Wait4Result.ok 2 (Proc.usizeToI32 c)
        ⟨1, [9], [⟨2, false⟩], []⟩) ∧
    (Proc.sys_exit_group ⟨2, [5], [], []⟩ ⟨1, [9], [⟨2, false⟩], []⟩
        c).child_exit_code = [(2, c)] ∧
    Proc.usizeToI32 42 = 42 := by
  refine ⟨rfl, rfl, by decide⟩

/-- C7: a parent observes each child's exit exactly once: whenever a
`sys_wait4` pass returns a child's pid and exit code, the child's entry has
been removed from the recorded exit codes, and a subsequent `sys_wait4`
targeting the same child — with no live child of that pid remaining — does
not return that exit again but fails with ECHILD. -/
theorem sys_wait4_exactly_once (proc : Proc.Process) (target : Proc.WaitTarget)
    (pid : Nat) (ws : Int) (proc2 : Proc.Process)
    (h : Proc.sys_wait4_pass proc target = .ok pid ws proc2)
    (hnochild : ((proc2.children.filter fun c => c.alive).find?
      fun c => c.pid = pid) = none) :
    proc2.child_exit_code = Proc.mapRemove proc.child_exit_code pid ∧
    Proc.mapGet proc2.child_exit_code pid = none ∧
    Proc.sys_wait4_pass proc2 (.pid pid) = .err .ECHILD := by
  have hrem : proc2.child_exit_code = Proc.mapRemove proc.child_exit_code pid ∧
      proc2.children = proc.children := by
    unfold Proc.sys_wait4_pass at h
    cases target with
    | anyChild =>
      cases hf : Proc.mapFirst proc.child_exit_code with
      | none =>
        rw [hf] at h
        dsimp only at h
        split at h <;> simp at h
      | some kv =>
        obtain ⟨k, v⟩ := kv
        rw [hf] at h
        dsimp only at h
        simp only [Proc.Wait4Result.ok.injEq] at h
        obtain ⟨hk, _, hp⟩ := h
        subst hk
        rw [← hp]
        exact ⟨rfl, rfl⟩
    | pid p =>
      dsimp only at h
      cases hg : Proc.mapGet proc.child_exit_code p with
      | none =>
        rw [hg] at h
        simp only [Option.map_none'] at h
        split at h <;> simp at h
      | some code =>
        rw [hg] at h
        simp only [Option.map_some'] at h
        simp only [Proc.Wait4Result.ok.injEq] at h
        obtain ⟨hk, _, hp⟩ := h
        subst hk
        rw [← hp]
        exact ⟨rfl, rfl⟩
  obtain ⟨hmap, hchildren⟩ := hrem
  refine ⟨hmap, ?_, ?_⟩
  · rw [hmap]
    exact Proc.mapGet_mapRemove proc.child_exit_code pid
  · unfold Proc.sys_wait4_pass
    rw [hmap]
    dsimp only
    rw [Proc.mapGet_mapRemove]
    simp [hnochild]

/-- Closed witness for `sys_wait4_exactly_once`: parent with one recorded
exit (2, 7) and a dead weak child 2; the first wait removes the entry, and
the second wait for pid 2 fails with ECHILD. -/
theorem sys_wait4_exactly_once_witness :
    Proc.Process.child_exit_code ⟨1, [9], [⟨2, false⟩], []⟩ =
      Proc.mapRemove [(2, 7)] 2 ∧
    Proc.mapGet (Proc.Process.child_exit_code ⟨1, [9], [⟨2, false⟩], []⟩) 2 =
      none ∧
    Proc.sys_wait4_pass ⟨1, [9], [⟨2, false⟩], []⟩ (.pid 2) =
      .err .ECHILD :=
  sys_wait4_exactly_once ⟨1, [9], [⟨2, false⟩], [(2, 7)]⟩ .anyChild 2
    (Proc.usizeToI32 7) ⟨1, [9], [⟨2, false⟩], []⟩ (by decide) (by decide)

namespace Clone

/-!
## `sys_clone` (src/kernel/src/syscall/proc.rs:19-53)

The environment supplies the outcomes of the two `vm.check_write_ptr`
checks (`none` = success, `some e` = the propagated error), the pid the
`sys_fork` path would return, and the tid `manager().add` assigns to a new
thread.  Externally visible effects are recorded in order.
-/

inductive Effect
  | forkCalled
  | threadCreated (tid : Nat)
  | wroteParentTid (v : Nat)
  | wroteChildTid (v : Nat)
deriving DecidableEq

structure Env where
  checkParentPtr : Option Proc.SysError
  checkChildPtr : Option Proc.SysError
  forkPid : Nat
  newTid : Nat
deriving DecidableEq

/-- `sys_clone(flags, ...)`: flags `0x4111` is redirected to `sys_fork`
ignoring the other arguments; any flags other than `0x7d0f00` fail with
ENOSYS before any check or write; otherwise both user pointers are checked,
the new thread is created, and its tid is written to both `parent_tid` and
`child_tid`. -/
def sys_clone (env : Env) (flags : Nat) :
    Except Proc.SysError Nat × List Effect :=
  if flags = 0x4111 then
    (.ok env.forkPid, [.forkCalled])
  else if flags ≠ 0x7d0f00 then
    (.error .ENOSYS, [])
  else
    match env.checkParentPtr with
    | some e => (.error e, [])
    | none =>
      match env.checkChildPtr with
      | some e => (.error e, [])
      | none =>
        (.ok env.newTid,
          [.threadCreated env.newTid, .wroteParentTid env.newTid,
            .wroteChildTid env.newTid])

end Clone

/-- C10: `sys_clone` accepts exactly two flag values: `0x4111` is redirected
to `sys_fork` (the other arguments are ignored — the result does not depend
on the pointer checks), `0x7d0f00` (with both user-pointer checks passing)
creates a new thread and writes the new tid to both `parent_tid` and
`child_tid`; any other flags value returns Err(ENOSYS) with no thread
created and no user memory written. -/
theorem sys_clone_flags (env : Clone.Env) (flags : Nat) :
    (flags = 0x4111 →
      Clone.sys_clone env flags = (.ok env.forkPid, [.forkCalled])) ∧
    (flags = 0x7d0f00 → env.checkParentPtr = none → env.checkChildPtr = none →
      Clone.sys_clone env flags =
        (.ok env.newTid,
          [.threadCreated env.newTid, .wroteParentTid env.newTid,
            .wroteChildTid env.newTid])) ∧
    (flags ≠ 0x4111 → flags ≠ 0x7d0f00 →
      Clone.sys_clone env flags = (.error .ENOSYS, [])) := by
  refine ⟨?_, ?_, ?_⟩
  · intro hf
    subst hf
    rfl
  · intro hf hp hc
    subst hf
    unfold Clone.sys_clone
    rw [hp, hc]
    rfl
  · intro h1 h2
    unfold Clone.sys_clone
    rw [if_neg h1, if_pos h2]

/-- Closed witness for `sys_clone_flags`: flags 0x33 (neither supported
value) yields ENOSYS with no effects. -/
theorem sys_clone_flags_witness :
    Clone.sys_clone ⟨none, none, 11, 12⟩ 0x33 = (.error .ENOSYS, []) :=
  (sys_clone_flags ⟨none, none, 11, 12⟩ 0x33).2.2 (by decide) (by decide)

namespace Dev

/-!
## Byte-oriented `Device` adapter over a `BlockDevice`
(src/kernel/src/rcore_fs/dev/mod.rs:34-90)

The adapter splits the byte range `[offset, offset + buf.len())` into
per-block ranges with `BlockIter` and issues one `BlockDevice` read/write
per range; `try0!(len, res)` returns `Some(len)` as soon as a block
operation reports failure, where `len = range.origin_begin() - offset`.
The `assert!(BLOCK_SIZE_LOG2 <= 12)` in the partial-block branches is
modelled as `none` (a panic is not a `Some` result).

Modelled from the spec: `BlockIter` and `BlockRange` come from the module
`rcore_fs/util`, which is not under `src/`; they are reconstructed from
their use here and pinned by the unit tests in rcore_fs/dev/mod.rs
(offsets 3/11/16 on a 16-byte, 4-byte-block device).  `BlockRange` fields
`begin`/`end` are named `lo`/`hi` (`end` is reserved in Lean).  The device
itself is abstracted to the success/failure of its per-block reads and
writes; data contents do not affect the adapter's return value.
-/

structure BlockRange where
  block : Nat
  lo : Nat
  hi : Nat
  block_size_log2 : Nat
deriving DecidableEq

def BlockRange.len (r : BlockRange) : Nat := r.hi - r.lo

def BlockRange.is_full (r : BlockRange) : Bool :=
  r.len == 2 ^ r.block_size_log2

def BlockRange.origin_begin (r : BlockRange) : Nat :=
  r.block * 2 ^ r.block_size_log2 + r.lo

def BlockRange.origin_end (r : BlockRange) : Nat :=
  r.block * 2 ^ r.block_size_log2 + r.hi

structure BlockIter where
  lo : Nat
  hi : Nat
  block_size_log2 : Nat
deriving DecidableEq

/-- `Iterator::next` for `BlockIter`. -/
def BlockIter.next (it : BlockIter) : Option (BlockRange × BlockIter) :=
  if it.lo ≥ it.hi then none
  else
    let block_size := 2 ^ it.block_size_log2
    let block := it.lo / block_size
    let lo := it.lo % block_size
    let hi := if block = it.hi / block_size then it.hi % block_size
              else block_size
    some (⟨block, lo, hi, it.block_size_log2⟩,
          ⟨block * block_size + hi, it.hi, it.block_size_log2⟩)

/-- The range list produced by exhausting a `BlockIter`; the fuel
`it.hi - it.lo` strictly bounds the number of `next` steps. -/
def blockRangesFuel : Nat → BlockIter → List BlockRange
  | 0, _ => []
  | fuel + 1, it =>
    match it.next with
    | none => []
    | some (r, it2) => r :: blockRangesFuel fuel it2

def blockRanges (it : BlockIter) : List BlockRange :=
  blockRangesFuel (it.hi - it.lo) it

theorem BlockIter.next_spec (it : BlockIter) (r : BlockRange)
    (it2 : BlockIter) (h : it.next = some (r, it2)) :
    it.lo < it.hi ∧
    r.block_size_log2 = it.block_size_log2 ∧
    r.lo < r.hi ∧
    r.origin_begin = it.lo ∧
    r.origin_end = it2.lo ∧
    it.lo < it2.lo ∧
    it2.lo ≤ it.hi ∧
    it2.hi = it.hi ∧
    it2.block_size_log2 = it.block_size_log2 := by
  unfold BlockIter.next at h
  split at h
  · exact absurd h (by simp)
  · rename_i hlt
    have hlo : it.lo < it.hi := by omega
    dsimp only at h
    simp only [Option.some.injEq, Prod.mk.injEq] at h
    obtain ⟨hr, hit2⟩ := h
    subst hr
    subst hit2
    have hbspos : 0 < 2 ^ it.block_size_log2 := Nat.two_pow_pos _
    have e1 : it.lo / 2 ^ it.block_size_log2 * 2 ^ it.block_size_log2 +
        it.lo % 2 ^ it.block_size_log2 = it.lo := Nat.div_add_mod' _ _
    have e2 : it.hi / 2 ^ it.block_size_log2 * 2 ^ it.block_size_log2 +
        it.hi % 2 ^ it.block_size_log2 = it.hi := Nat.div_add_mod' _ _
    have m1 : it.lo % 2 ^ it.block_size_log2 < 2 ^ it.block_size_log2 :=
      Nat.mod_lt _ hbspos
    have m2 : it.hi % 2 ^ it.block_size_log2 < 2 ^ it.block_size_log2 :=
      Nat.mod_lt _ hbspos
    have hc3 : it.lo % 2 ^ it.block_size_log2 <
        (if it.lo / 2 ^ it.block_size_log2 = it.hi / 2 ^ it.block_size_log2
          then it.hi % 2 ^ it.block_size_log2 else 2 ^ it.block_size_log2) := by
      split_ifs with hq
      · rw [hq] at e1
        omega
      · omega
    have hc6 : it.lo <
        it.lo / 2 ^ it.block_size_log2 * 2 ^ it.block_size_log2 +
        (if it.lo / 2 ^ it.block_size_log2 = it.hi / 2 ^ it.block_size_log2
          then it.hi % 2 ^ it.block_size_log2 else 2 ^ it.block_size_log2) := by
      split_ifs with hq
      · rw [hq] at e1 ⊢
        omega
      · omega
    have hc7 :
        it.lo / 2 ^ it.block_size_log2 * 2 ^ it.block_size_log2 +
        (if it.lo / 2 ^ it.block_size_log2 = it.hi / 2 ^ it.block_size_log2
          then it.hi % 2 ^ it.block_size_log2 else 2 ^ it.block_size_log2) ≤
        it.hi := by
      split_ifs with hq
      · rw [hq]
        omega
      · have hqle : it.lo / 2 ^ it.block_size_log2 ≤
            it.hi / 2 ^ it.block_size_log2 :=
          Nat.div_le_div_right (le_of_lt hlo)
        have hqlt : it.lo / 2 ^ it.block_size_log2 <
            it.hi / 2 ^ it.block_size_log2 := lt_of_le_of_ne hqle hq
        have hmul : (it.lo / 2 ^ it.block_size_log2 + 1) *
            2 ^ it.block_size_log2 ≤
            it.hi / 2 ^ it.block_size_log2 * 2 ^ it.block_size_log2 :=
          Nat.mul_le_mul_right _ (by omega)
        rw [Nat.succ_mul] at hmul
        have hup : it.hi / 2 ^ it.block_size_log2 * 2 ^ it.block_size_log2 ≤
            it.hi := Nat.div_mul_le_self _ _
        omega
    exact ⟨hlo, rfl, hc3, e1, rfl, hc6, hc7, rfl, rfl⟩

end Dev

namespace Dev

theorem blockRangesFuel_origin : ∀ (fuel : Nat) (it : BlockIter)
    (pre : List BlockRange) (r : BlockRange) (post : List BlockRange),
    blockRangesFuel fuel it = pre ++ r :: post →
    r.origin_begin = it.lo + (pre.map BlockRange.len).sum ∧
    r.origin_begin < it.hi := by
  intro fuel
  induction fuel with
  | zero =>
    intro it pre r post h
    simp [blockRangesFuel] at h
  | succ n ih =>
    intro it pre r post h
    rw [blockRangesFuel] at h
    cases hnext : it.next with
    | none =>
      rw [hnext] at h
      simp at h
    | some p =>
      obtain ⟨r0, it2⟩ := p
      rw [hnext] at h
      obtain ⟨hlt, _, hrlh, hob, hoe, hlo2, hle2, hhi2, _⟩ :=
        BlockIter.next_spec it r0 it2 hnext
      cases pre with
      | nil =>
        simp only [List.nil_append, List.cons.injEq] at h
        obtain ⟨hr, _⟩ := h
        subst hr
        refine ⟨by simpa using hob, ?_⟩
        rw [hob]
        exact hlt
      | cons p0 pre2 =>
        simp only [List.cons_append, List.cons.injEq] at h
        obtain ⟨hp0, hrest⟩ := h
        subst hp0
        obtain ⟨ih1, ih2⟩ := ih it2 pre2 r post hrest
        refine ⟨?_, ?_⟩
        · rw [ih1]
          simp only [List.map_cons, List.sum_cons]
          have hstep : it2.lo = it.lo + BlockRange.len r0 := by
            simp only [BlockRange.len]
            simp only [BlockRange.origin_begin] at hob
            simp only [BlockRange.origin_end] at hoe
            omega
          omega
        · rw [← hhi2]
          exact ih2

/-- The block-level view of the device: whether each block read / write
succeeds (`BlockDevice::read_at` / `write_at` returning `true`). -/
structure BlockDev where
  block_size_log2 : Nat
  readOk : Nat → Bool
  writeOk : Nat → Bool

/-- The per-range loop body of `Device::read_at` (dev/mod.rs:43-58): a full
range issues one block read into the caller's buffer; a partial range
asserts `BLOCK_SIZE_LOG2 <= 12` (panic modelled as `none`) and issues one
block read into a local buffer; `try0!` turns a failed read into
`Some(range.origin_begin() - offset)`. -/
def read_at_loop (dev : BlockDev) (offset bufLen : Nat) :
    List BlockRange → Option Nat
  | [] => some bufLen
  | r :: rs =>
    if r.is_full then
      if dev.readOk r.block then read_at_loop dev offset bufLen rs
      else some (r.origin_begin - offset)
    else
      if dev.block_size_log2 ≤ 12 then
        if dev.readOk r.block then read_at_loop dev offset bufLen rs
        else some (r.origin_begin - offset)
      else none

/-- `Device::read_at` (dev/mod.rs:35-60). -/
def read_at (dev : BlockDev) (offset bufLen : Nat) : Option Nat :=
  read_at_loop dev offset bufLen
    (blockRanges ⟨offset, offset + bufLen, dev.block_size_log2⟩)

/-- The per-range loop body of `Device::write_at` (dev/mod.rs:70-87): a full
range issues one block write; a partial range asserts the block size, reads
the block into a local buffer, patches it and writes it back — failure of
either the read or the write yields `Some(range.origin_begin() - offset)`. -/
def write_at_loop (dev : BlockDev) (offset bufLen : Nat) :
    List BlockRange → Option Nat
  | [] => some bufLen
  | r :: rs =>
    if r.is_full then
      if dev.writeOk r.block then write_at_loop dev offset bufLen rs
      else some (r.origin_begin - offset)
    else
      if dev.block_size_log2 ≤ 12 then
        if dev.readOk r.block then
          if dev.writeOk r.block then write_at_loop dev offset bufLen rs
          else some (r.origin_begin - offset)
        else some (r.origin_begin - offset)
      else none

/-- `Device::write_at` (dev/mod.rs:62-89). -/
def write_at (dev : BlockDev) (offset bufLen : Nat) : Option Nat :=
  write_at_loop dev offset bufLen
    (blockRanges ⟨offset, offset + bufLen, dev.block_size_log2⟩)

/-- The read adapter's block operation on range `r` fails. -/
def readFails (dev : BlockDev) (r : BlockRange) : Bool :=
  !dev.readOk r.block

/-- The write adapter's block operations on range `r` fail (a partial
range also performs a read-modify-write read). -/
def writeFails (dev : BlockDev) (r : BlockRange) : Bool :=
  if r.is_full then !dev.writeOk r.block
  else !dev.readOk r.block || !dev.writeOk r.block

theorem read_at_loop_isSome (dev : BlockDev) (offset bufLen : Nat)
    (hb : dev.block_size_log2 ≤ 12) :
    ∀ rs, (read_at_loop dev offset bufLen rs).isSome = true := by
  intro rs
  induction rs with
  | nil => rfl
  | cons r rs ih =>
    rw [read_at_loop]
    split_ifs <;> first | exact ih | rfl | exact absurd hb (by assumption)

theorem write_at_loop_isSome (dev : BlockDev) (offset bufLen : Nat)
    (hb : dev.block_size_log2 ≤ 12) :
    ∀ rs, (write_at_loop dev offset bufLen rs).isSome = true := by
  intro rs
  induction rs with
  | nil => rfl
  | cons r rs ih =>
    rw [write_at_loop]
    split_ifs <;> first | exact ih | rfl | exact absurd hb (by assumption)

theorem read_at_loop_ok (dev : BlockDev) (offset bufLen : Nat)
    (hb : dev.block_size_log2 ≤ 12) :
    ∀ rs, (∀ r ∈ rs, readFails dev r = false) →
      read_at_loop dev offset bufLen rs = some bufLen := by
  intro rs
  induction rs with
  | nil => intro _; rfl
  | cons r rs ih =>
    intro hok
    have hr : dev.readOk r.block = true := by
      have := hok r (by simp)
      simpa [readFails] using this
    have hrest := ih fun r2 h2 => hok r2 (by simp [h2])
    rw [read_at_loop]
    split_ifs <;> first | exact hrest | simp_all

theorem write_at_loop_ok (dev : BlockDev) (offset bufLen : Nat)
    (hb : dev.block_size_log2 ≤ 12) :
    ∀ rs, (∀ r ∈ rs, writeFails dev r = false) →
      write_at_loop dev offset bufLen rs = some bufLen := by
  intro rs
  induction rs with
  | nil => intro _; rfl
  | cons r rs ih =>
    intro hok
    have hr := hok r (by simp)
    have hrest := ih fun r2 h2 => hok r2 (by simp [h2])
    rw [write_at_loop]
    by_cases hf : r.is_full
    · have hw : dev.writeOk r.block = true := by
        simpa [writeFails, hf] using hr
      simp [hf, hw, hrest]
    · have hw : dev.readOk r.block = true ∧ dev.writeOk r.block = true := by
        simpa [writeFails, hf] using hr
      simp [hf, hb, hw.1, hw.2, hrest]

theorem read_at_loop_fail (dev : BlockDev) (offset bufLen : Nat)
    (hb : dev.block_size_log2 ≤ 12) :
    ∀ pre (r : BlockRange) post, (∀ r2 ∈ pre, readFails dev r2 = false) →
      readFails dev r = true →
      read_at_loop dev offset bufLen (pre ++ r :: post) =
        some (r.origin_begin - offset) := by
  intro pre
  induction pre with
  | nil =>
    intro r post _ hfail
    have hr : dev.readOk r.block = false := by simpa [readFails] using hfail
    rw [List.nil_append, read_at_loop]
    split_ifs <;> simp_all
  | cons p pre2 ih =>
    intro r post hok hfail
    have hp : dev.readOk p.block = true := by
      have := hok p (by simp)
      simpa [readFails] using this
    have hrest := ih r post (fun r2 h2 => hok r2 (by simp [h2])) hfail
    rw [List.cons_append, read_at_loop]
    split_ifs <;> simp_all

theorem write_at_loop_fail (dev : BlockDev) (offset bufLen : Nat)
    (hb : dev.block_size_log2 ≤ 12) :
    ∀ pre (r : BlockRange) post, (∀ r2 ∈ pre, writeFails dev r2 = false) →
      writeFails dev r = true →
      write_at_loop dev offset bufLen (pre ++ r :: post) =
        some (r.origin_begin - offset) := by
  intro pre
  induction pre with
  | nil =>
    intro r post _ hfail
    rw [List.nil_append, write_at_loop]
    by_cases hf : r.is_full
    · have hw : dev.writeOk r.block = false := by
        simpa [writeFails, hf] using hfail
      simp [hf, hw]
    · have hw : dev.readOk r.block = false ∨ dev.writeOk r.block = false := by
        have := hfail
        simp [writeFails, hf] at this
        rcases this with h | h
        · exact Or.inl h
        · exact Or.inr h
      rcases hw with h | h
      · simp [hf, hb, h]
      · by_cases hrd : dev.readOk r.block <;> simp [hf, hb, hrd, h]
  | cons p pre2 ih =>
    intro r post hok hfail
    have hp := hok p (by simp)
    have hrest := ih r post (fun r2 h2 => hok r2 (by simp [h2])) hfail
    rw [List.cons_append, write_at_loop]
    by_cases hf : p.is_full
    · have hw : dev.writeOk p.block = true := by
        simpa [writeFails, hf] using hp
      simp [hf, hw, hrest]
    · have hw : dev.readOk p.block = true ∧ dev.writeOk p.block = true := by
        simpa [writeFails, hf] using hp
      simp [hf, hb, hw.1, hw.2, hrest]

end Dev

/-- C9: over any block device with `BLOCK_SIZE_LOG2 ≤ 12`, the byte-oriented
`Device` adapter is total and never returns `None`: `read_at` and `write_at`
return `Some bufLen` when every underlying block operation succeeds, and when
an underlying block operation fails (the operations of the earlier ranges
succeeding) they return `Some k` where `k` is the number of bytes fully
transferred before the failing block — the sum of the lengths of the
preceding block ranges. -/
theorem device_adapter_total (dev : Dev.BlockDev) (offset bufLen : Nat)
    (hb : dev.block_size_log2 ≤ 12) :
    ((Dev.read_at dev offset bufLen).isSome = true ∧
      (Dev.write_at dev offset bufLen).isSome = true) ∧
    ((∀ r ∈ Dev.blockRanges ⟨offset, offset + bufLen, dev.block_size_log2⟩,
        Dev.readFails dev r = false) →
      Dev.read_at dev offset bufLen = some bufLen) ∧
    ((∀ r ∈ Dev.blockRanges ⟨offset, offset + bufLen, dev.block_size_log2⟩,
        Dev.writeFails dev r = false) →
      Dev.write_at dev offset bufLen = some bufLen) ∧
    (∀ pre (r : Dev.BlockRange) post,
      Dev.blockRanges ⟨offset, offset + bufLen, dev.block_size_log2⟩ =
        pre ++ r :: post →
      (∀ r2 ∈ pre, Dev.readFails dev r2 = false) →
      Dev.readFails dev r = true →
      Dev.read_at dev offset bufLen =
        some ((pre.map Dev.BlockRange.len).sum)) ∧
    (∀ pre (r : Dev.BlockRange) post,
      Dev.blockRanges ⟨offset, offset + bufLen, dev.block_size_log2⟩ =
        pre ++ r :: post →
      (∀ r2 ∈ pre, Dev.writeFails dev r2 = false) →
      Dev.writeFails dev r = true →
      Dev.write_at dev offset bufLen =
        some ((pre.map Dev.BlockRange.len).sum)) := by
  refine ⟨⟨Dev.read_at_loop_isSome dev offset bufLen hb _,
      Dev.write_at_loop_isSome dev offset bufLen hb _⟩,
    fun hok => Dev.read_at_loop_ok dev offset bufLen hb _ hok,
    fun hok => Dev.write_at_loop_ok dev offset bufLen hb _ hok,
    ?_, ?_⟩
  · intro pre r post hsplit hok hfail
    have horig := Dev.blockRangesFuel_origin (offset + bufLen - offset)
      ⟨offset, offset + bufLen, dev.block_size_log2⟩ pre r post hsplit
    unfold Dev.read_at
    rw [hsplit, Dev.read_at_loop_fail dev offset bufLen hb pre r post hok hfail]
    have : r.origin_begin = offset + (pre.map Dev.BlockRange.len).sum := horig.1
    rw [this]
    congr 1
    omega
  · intro pre r post hsplit hok hfail
    have horig := Dev.blockRangesFuel_origin (offset + bufLen - offset)
      ⟨offset, offset + bufLen, dev.block_size_log2⟩ pre r post hsplit
    unfold Dev.write_at
    rw [hsplit, Dev.write_at_loop_fail dev offset bufLen hb pre r post hok hfail]
    have : r.origin_begin = offset + (pre.map Dev.BlockRange.len).sum := horig.1
    rw [this]
    congr 1
    omega

/-- Closed witness for `device_adapter_total`: the 16-byte device of the
module's unit tests (4 blocks of 4 bytes; block ids ≥ 4 fail); a 6-byte read
entirely past the device end (offset 16) returns `Some 0`, not `None`. -/
theorem device_adapter_total_witness :
    Dev.read_at ⟨2, fun b => decide (b < 4), fun b => decide (b < 4)⟩ 16 6 =
      some ((List.map Dev.BlockRange.len []).sum) :=
  (device_adapter_total ⟨2, fun b => decide (b < 4), fun b => decide (b < 4)⟩
      16 6 (by decide)).2.2.2.1
    [] ⟨4, 0, 4, 2⟩ [⟨5, 0, 2, 2⟩] (by decide)
    (by intro r2 h2; simp at h2) (by decide)
